import Mathlib

/-!
Verification of the Chunked Retrieval & Generation Engine
(`backend/services/weaviate_service.py`).

Texts are modelled as `List Char`. Python string primitives used by the code
(slicing with negative-index wraparound, `str.rfind`, `str.strip`,
`str.split`, `", ".join`) are embedded below, faithful to CPython semantics
on the ASCII texts the engine handles. Similarity distances reported by the
vector store are modelled as rationals (`ℚ`); `Option ℚ` covers the `None`
case that the code guards against. The vector store and the generation
service are external collaborators: their replies (ranked match lists,
fetch results, HTTP outcome) enter the embedded functions as arguments, and
effects the code performs on them (deletes, inserts, the generation call)
are recorded in the returned structures.
-/

/-- The characters stripped by CPython `str.strip()`: the full Unicode
whitespace set of `Py_UNICODE_ISSPACE` - ASCII `\t`-`\r`, the file/group/
record/unit separators `\x1c`-`\x1f`, space, NEL `\x85`, no-break space
`\xa0`, the Ogham space mark, the `\x2000`-`\x200a` spaces, the line and
paragraph separators, the narrow no-break space, the medium mathematical
space, and the ideographic space. -/
def isPySpace (c : Char) : Bool :=
  (9 ≤ c.toNat && c.toNat ≤ 13) || (28 ≤ c.toNat && c.toNat ≤ 32) ||
    c.toNat = 0x85 || c.toNat = 0xa0 || c.toNat = 0x1680 ||
    (0x2000 ≤ c.toNat && c.toNat ≤ 0x200a) || c.toNat = 0x2028 ||
    c.toNat = 0x2029 || c.toNat = 0x202f || c.toNat = 0x205f || c.toNat = 0x3000

/-- Python `s.strip()`: drop leading and trailing whitespace. -/
def pyStrip (s : List Char) : List Char :=
  ((s.dropWhile isPySpace).reverse.dropWhile isPySpace).reverse

/-- Python slicing `s[a:b]`: negative indices count from the end
(then clamp at 0), positive ones clamp at `len s`. -/
def pySlice (s : List Char) (a b : Int) : List Char :=
  let n : Int := s.length
  let a' : Nat := (if a < 0 then max 0 (n + a) else min a n).toNat
  let b' : Nat := (if b < 0 then max 0 (n + b) else min b n).toNat
  (s.drop a').take (b' - a')

/-- Does `sub` occur in `s` starting at index `i`?  Mirrors the test
`s[i:i+len(sub)] == sub` underlying Python `str.rfind`. -/
def occursAt (s sub : List Char) (i : Nat) : Bool :=
  decide ((s.drop i).take sub.length = sub)

/-- Index of the last occurrence of `sub` in `s`, if any
(Python `s.rfind(sub)` returns this index, or `-1` when `none`). -/
def lastOccurrence (s sub : List Char) : Option Nat :=
  ((List.range (s.length + 1)).filter (occursAt s sub)).getLast?

/-- Python `s.split(sep)` for a non-empty separator, by fuel on `s`. -/
def pySplitGo (sep : List Char) : Nat → List Char → List Char → List (List Char)
  | 0, _, cur => [cur]
  | _ + 1, [], cur => [cur]
  | fuel + 1, c :: rest, cur =>
    if occursAt (c :: rest) sep 0 then
      cur :: pySplitGo sep fuel ((c :: rest).drop sep.length) []
    else
      pySplitGo sep fuel rest (cur ++ [c])

/-- Python `s.split(sep)` (non-empty `sep`, no maxsplit). -/
def pySplit (s sep : List Char) : List (List Char) :=
  pySplitGo sep (s.length + 1) s []

/- ### The Chunker (`chunk_text`, weaviate_service.py lines 16-53) -/

/-- The boundary separators tried in priority order:
`'. '`, `'! '`, `'? '`, `'\n\n'`, `'\n'`. -/
def seps : List (List Char) := [['.', ' '], ['!', ' '], ['?', ' '], ['\n', '\n'], ['\n']]

/-- The sentence/line-boundary adjustment applied to a non-final window end:
for the first separator found in `text[e-100:e]`, cut at
`e - 100 + last_sep + len(sep)`; otherwise keep `e`. -/
def boundaryAdjust (text : List Char) (e : Int) : Int :=
  ((seps.filterMap (fun sep =>
      (lastOccurrence (pySlice text (e - 100) e) sep).map
        (fun (i : Nat) => e - 100 + (i : Int) + (sep.length : Int)))).head?).getD e

/-- The effective end of the window starting at `start`:
`end = start + chunk_size`, boundary-adjusted unless it is the last window. -/
def windowEnd (text : List Char) (cs start : Int) : Int :=
  if start + cs < (text.length : Int) then boundaryAdjust text (start + cs) else start + cs

/-- The next value of `start`: `end - overlap if end < len(text) else end`
(no clamping appears in the source). -/
def nextStart (text : List Char) (cs ov start : Int) : Int :=
  if windowEnd text cs start < (text.length : Int) then windowEnd text cs start - ov
  else windowEnd text cs start

/-- The stripped chunk cut from the window starting at `start`. -/
def chunkAt (text : List Char) (cs start : Int) : List Char :=
  pyStrip (pySlice text start (windowEnd text cs start))

/-- The `while start < len(text)` loop of `chunk_text`, with explicit fuel;
`none` means the fuel ran out before the loop exited. -/
def chunkLoop (text : List Char) (cs ov : Int) :
    Nat → Int → List (List Char) → Option (List (List Char))
  | 0, _, _ => none
  | fuel + 1, start, acc =>
    if start < (text.length : Int) then
      chunkLoop text cs ov fuel (nextStart text cs ov start)
        (if (chunkAt text cs start).isEmpty then acc else acc ++ [chunkAt text cs start])
    else
      some acc

/-- `chunk_text` run with a given fuel bound on the loop. -/
def chunkTextFueled (text : List Char) (cs ov : Int) (fuel : Nat) :
    Option (List (List Char)) :=
  if (text.length : Int) ≤ cs then some [text] else chunkLoop text cs ov fuel 0 []

/-- `chunk_text(text, chunk_size=1500, overlap=200)`.  The loop advances
`start` by at least one position per iteration whenever
`overlap + 100 ≤ chunk_size` (proved below), so `text.length + 1` fuel is
exact for those configurations; `none` reports a run that exceeds it. -/
def chunk_text (text : List Char) (cs ov : Int) :
    Option (List (List Char)) :=
  chunkTextFueled text cs ov (text.length + 1)

example : pyStrip (' ' :: 'a' :: ' ' :: []) = ['a'] := by decide
example : pySlice ('a' :: 'b' :: 'c' :: []) (-2) 3 = ['b', 'c'] := by decide
example : pySlice ('a' :: 'b' :: 'c' :: []) (-5) 2 = ['a', 'b'] := by decide
example : lastOccurrence ('a' :: 'b' :: 'a' :: []) ['a'] = some 2 := by decide
example : lastOccurrence ('a' :: 'b' :: []) ['c'] = none := by decide
example : chunk_text ('a' :: 'b' :: []) 5 5 = some [('a' :: 'b' :: [])] := by decide
example : pySplit ('a' :: ',' :: ' ' :: 'b' :: []) [',', ' '] = [['a'], ['b']] := by decide

/- ### Stable sorting (Python `sorted` / `list.sort`) -/

/-- Insert `x` before the first element `y` with `le x y`; later elements
with a key equal to `x`'s stay behind `x`, matching Python's stable sort. -/
def sInsert (le : α → α → Bool) (x : α) : List α → List α
  | [] => [x]
  | y :: ys => if le x y then x :: y :: ys else y :: sInsert le x ys

/-- Stable insertion sort: the embedding of Python `sorted(l, key=...)`
(and of in-place `l.sort(key=...)`). -/
def sSort (le : α → α → Bool) : List α → List α
  | [] => []
  | x :: xs => sInsert le x (sSort le xs)

/- ### The vector store's reply and the search result shapes -/

/-- One chunk match as the vector store returns it: the stored properties
plus the reported similarity distance (`none` models a `None` distance). -/
structure SObj where
  note_id : List Char
  title : List Char
  content : List Char
  tags : List Char
  created_at : List Char
  updated_at : List Char
  chunk_index : Int
  total_chunks : Int
  distance : Option ℚ
  deriving DecidableEq, Repr

/-- One document-level entry of `semantic_search`'s reply. -/
structure SearchResult where
  note_id : List Char
  title : List Char
  content : List Char
  tags : List (List Char)
  created_at : List Char
  updated_at : List Char
  relevance_score : ℚ
  chunk_index : Int
  deriving DecidableEq, Repr

/-- The dict entry built for a chunk match (weaviate_service.py lines
307-316).  `relevance_score` is `1 - obj.metadata.distance if
obj.metadata.distance else 0.0`: the truthiness test sends both a `None`
and a `0.0` distance to the `0.0` branch. -/
def toSearchResult (o : SObj) : SearchResult where
  note_id := o.note_id
  title := o.title
  content := o.content
  tags := if o.tags.isEmpty then [] else pySplit o.tags [',', ' ']
  created_at := o.created_at
  updated_at := o.updated_at
  relevance_score :=
    match o.distance with
    | some d => if d = 0 then 0 else 1 - d
    | none => 0
  chunk_index := o.chunk_index

/-- The `notes_dict` loop (lines 302-316): iterate the matches in the
store's ranking and keep only the first-encountered match per `note_id`;
Python dicts preserve insertion order. -/
def dedupByNote : List SObj → List (List Char × SearchResult) → List (List Char × SearchResult)
  | [], d => d
  | o :: rest, d =>
    dedupByNote rest
      (if d.any (fun p => decide (p.1 = o.note_id)) then d
       else d ++ [(o.note_id, toSearchResult o)])

/-- `semantic_search` after the store replied with `objs` (lines 301-320):
dedup by `note_id`, sort by `relevance_score` descending (stable), truncate
to `limit`.  The tag filter acts inside the store and is part of how `objs`
was produced. -/
def semantic_search (objs : List SObj) (limit : Nat) : List SearchResult :=
  ((sSort (fun a b => decide (b.relevance_score ≤ a.relevance_score))
    ((dedupByNote objs []).map (fun p => p.2))).take limit)

/- ### The Indexer (`index_note`, lines 171-227) -/

/-- One chunk record as `index_note` writes it to the vector store. -/
structure ChunkRecord where
  note_id : List Char
  title : List Char
  content : List Char
  chunk_index : Nat
  total_chunks : Nat
  tags : List Char
  created_at : List Char
  updated_at : List Char
  deriving DecidableEq, Repr

/-- `", ".join(tags) if tags else ""` (line 213). -/
def joinTags (tags : List (List Char)) : List Char :=
  if tags.isEmpty then [] else List.intercalate [',', ' '] tags

/-- The insertion loop of `index_note` (lines 206-221).  `ins i` is the
store's reply to the `i`-th insert (`none` models a raised store error,
which aborts the loop and makes `index_note` return `None`).  Returns the
successfully inserted records and the value of `first_uuid`. -/
def insertChunks (ins : Nat → Option (List Char)) (mk : Nat → List Char → ChunkRecord) :
    Nat → List (List Char) → Option (List Char) → List ChunkRecord × Option (List Char)
  | _, [], first => ([], first)
  | i, c :: rest, first =>
    match ins i with
    | none => ([], none)
    | some u =>
      let r := insertChunks ins mk (i + 1) rest (if i = 0 then some u else first)
      (mk i c :: r.1, r.2)

/-- What one `index_note` call did: which note's chunks it deleted first,
which chunk records it inserted, and its return value. -/
structure IndexResult where
  deletedNote : List Char
  inserted : List ChunkRecord
  ret : Option (List Char)
  deriving DecidableEq, Repr

/-- `index_note` (lines 171-227): delete all existing chunks of the note,
chunk the content with the default configuration, insert one record per
chunk tagged with its ordinal and the total count, return the first
chunk's store id, or `None` when there is no chunk or the store failed. -/
def index_note (ins : Nat → Option (List Char))
    (note_id title content : List Char) (tags : List (List Char))
    (created_at updated_at : List Char) : IndexResult :=
  let chunks := (chunk_text content 1500 200).getD []
  let total := chunks.length
  let mk : Nat → List Char → ChunkRecord := fun i c =>
    ⟨note_id, title, c, i, total, joinTags tags, created_at, updated_at⟩
  let r := insertChunks ins mk 0 chunks none
  ⟨note_id, r.1, r.2⟩

/- ### The Context Window Assembler (`search_within_note`, lines 325-408) -/

/-- The reply of `search_within_note`; `chunk_range` is the effective
window `[start, end]` (rendered as a string by the code). -/
structure WithinResult where
  context : List Char
  title : List Char
  chunk_range : Int × Int
  total_chunks : Int
  best_chunk_index : Int
  deriving DecidableEq, Repr

/-- `search_within_note` after the store replied: `ranked` is the
similarity-ranked list for the note (line 347, `near_text` restricted to
the note), `fetched` the unranked fetch of all its chunks (line 376).
Take the top match, window its ordinal by `window_chunks` on both sides
clamped to `[0, total-1]`, sort the fetched chunks by ordinal, keep the
window, and join the texts with a blank line. -/
def search_within_note (ranked fetched : List SObj) (window_chunks : Int) :
    Option WithinResult :=
  match ranked with
  | [] => none
  | best :: _ =>
    some ⟨List.intercalate ('\n' :: '\n' :: [])
        (((sSort (fun x y => decide (x.chunk_index ≤ y.chunk_index)) fetched).filter
          (fun c => decide (max 0 (best.chunk_index - window_chunks) ≤ c.chunk_index) &&
            decide (c.chunk_index ≤ min (best.total_chunks - 1) (best.chunk_index + window_chunks)))).map
          (fun c => c.content)),
      best.title,
      (max 0 (best.chunk_index - window_chunks),
        min (best.total_chunks - 1) (best.chunk_index + window_chunks)),
      best.total_chunks, best.chunk_index⟩

/- ### The Generation Orchestrator (`generative_search`, lines 410-601) -/

/-- Outcome of the `requests.post` generation call: an HTTP reply with a
status and the `response` field of its JSON body, or a raised transport
error carrying the exception text. -/
inductive GenOutcome where
  | httpReply (status : Nat) (respText : List Char)
  | transportFail (msg : List Char)
  deriving DecidableEq, Repr

/-- One entry of the `context_notes` list (lines 583-587). -/
structure Preview where
  note_id : List Char
  title : List Char
  content_preview : List Char
  deriving DecidableEq, Repr

/-- `content[:200] + "..." if len(content) > 200 else content`. -/
def toPreview (o : SObj) : Preview :=
  ⟨o.note_id, o.title,
    if 200 < o.content.length then pySlice o.content 0 200 ++ ('.' :: '.' :: '.' :: [])
    else o.content⟩

/-- Step 2 first half (lines 471-483): keep the chunks whose distance is
reported and strictly below the 0.5 threshold, in ranking order. -/
def thresholdFiltered (objs : List SObj) : List (SObj × ℚ) :=
  objs.filterMap (fun o =>
    match o.distance with
    | some d => if d < 1 / 2 then some (o, d) else none
    | none => none)

/-- Step 2 second half (lines 487-493): if nothing passed the threshold,
fall back to the first 3 matches of the ranking.  (When such a match has
no reported distance the code pairs it with the `1.0` default; Python
would only take that branch with the metadata attribute absent, and a
`None` paired here would make the later sort raise - a path outside every
claim, which all assume reported distances.) -/
def withFallback (objs : List SObj) : List (SObj × ℚ) :=
  if (thresholdFiltered objs).isEmpty then
    (objs.take 3).map (fun o => (o, o.distance.getD 1))
  else thresholdFiltered objs

/-- One step of the `note_best_chunks` update (lines 497-501): a fresh
`note_id` is appended, a known one is replaced in place when the new
distance is strictly smaller. -/
def bestUpdate (d : List (List Char × (SObj × ℚ))) (o : SObj) (dist : ℚ) :
    List (List Char × (SObj × ℚ)) :=
  match d.find? (fun e => decide (e.1 = o.note_id)) with
  | none => d ++ [(o.note_id, (o, dist))]
  | some e =>
    if dist < e.2.2 then
      d.map (fun e' => if e'.1 = o.note_id then (o.note_id, (o, dist)) else e')
    else d

/-- Step 3 (lines 495-503): the `note_best_chunks` dict keyed by
`note_id`, keeping the smallest-distance pair per note; Python dicts
preserve the position of an updated key. -/
def updBest : List (SObj × ℚ) → List (List Char × (SObj × ℚ)) → List (List Char × (SObj × ℚ))
  | [], d => d
  | (o, dist) :: rest, d => updBest rest (bestUpdate d o dist)

/-- Steps 2-4 (lines 466-508): threshold filter with top-3 fallback,
per-note dedup, stable sort by distance ascending, truncate to `limit`.
These are the chunks whose previews become the answer's source list. -/
def selectedChunks (objs : List SObj) (limit : Nat) : List (SObj × ℚ) :=
  (sSort (fun x y => decide (x.2 ≤ y.2)) ((updBest (withFallback objs) []).map (·.2))).take limit

/-- The reply of `generative_search`, with a record of whether the
generation service was actually called. -/
structure GenResult where
  response : List Char
  context_notes : List Preview
  generationCalled : Bool
  deriving DecidableEq, Repr

/-- The canned reply when the first retrieval finds nothing (line 462). -/
def noContentMsg : List Char := ("No relevant notes found to answer your question.").toList

/-- The user-safe fallback when the generation call answers with a
non-success status (line 574). -/
def genErrorMsg : List Char := ("I encountered an error while generating a response.").toList

/-- The reply substituted for an empty generated text (line 590); the
apostrophe of the source string is spelled `Char.ofNat 39`. -/
def emptyGenMsg : List Char :=
  ("I couldn").toList ++ Char.ofNat 39 :: ("t generate a response based on your notes.").toList

/-- The answer text of the outer exception handler (line 599), which
prefixes the exception's text. -/
def transportErrorMsg (msg : List Char) : List Char :=
  ("Error generating response: ").toList ++ msg

/-- The value of `generated_text` after the HTTP reply was read (lines
569-574): the JSON `response` field on a 200 status, the user-safe
fallback otherwise. -/
def generatedText (status : Nat) (respText : List Char) : List Char :=
  if status = 200 then respText else genErrorMsg

/-- `generative_search` after the store replied with `objs` (lines
410-601).  `gen` is the generation service's behavior for the assembled
prompt.  Zero matches short-circuit to the canned message with no
generation call; a non-success status substitutes the fallback message but
keeps the selected sources; a raised transport error is caught by the
outer handler, which drops the sources.  The prompt string itself (and the
`additional_context` block spliced into it) only feeds the generation call
and is not modelled. -/
def generative_search (objs : List SObj) (limit : Nat) (gen : GenOutcome) : GenResult :=
  if objs.isEmpty then ⟨noContentMsg, [], false⟩
  else
    match gen with
    | .httpReply status respText =>
      ⟨if (generatedText status respText).isEmpty then emptyGenMsg
        else generatedText status respText,
        (selectedChunks objs limit).map (fun p => toPreview p.1), true⟩
    | .transportFail msg => ⟨transportErrorMsg msg, [], true⟩

/- ### Facts about the embedded Python string primitives -/

theorem dropWhile_eq_self_of {p : Char → Bool} {l : List Char}
    (h : ∀ c ∈ l, p c = false) : l.dropWhile p = l := by
  cases l with
  | nil => rfl
  | cons c t => simp [List.dropWhile_cons, h c (by simp)]

theorem pyStrip_of_noWs {s : List Char} (h : ∀ c ∈ s, isPySpace c = false) :
    pyStrip s = s := by
  have h1 : s.dropWhile isPySpace = s := dropWhile_eq_self_of h
  have h2 : s.reverse.dropWhile isPySpace = s.reverse :=
    dropWhile_eq_self_of (by intro c hc; exact h c (List.mem_reverse.1 hc))
  unfold pyStrip
  rw [h1, h2, List.reverse_reverse]

theorem pyStrip_of_allWs {s : List Char} (h : ∀ c ∈ s, isPySpace c = true) :
    pyStrip s = [] := by
  have h1 : s.dropWhile isPySpace = [] :=
    List.dropWhile_eq_nil_iff.2 (by intro c hc; exact h c hc)
  unfold pyStrip
  rw [h1]
  simp

theorem mem_of_mem_pySlice {s : List Char} {a b : Int} {c : Char}
    (h : c ∈ pySlice s a b) : c ∈ s := by
  unfold pySlice at h
  exact List.mem_of_mem_drop (List.mem_of_mem_take h)

/-- A slice whose negative start wraps to a position at or beyond its end is
empty. -/
theorem pySlice_eq_nil_of_wrap {s : List Char} {a b : Int}
    (ha : a < 0) (hb : 0 ≤ b) (hw : b ≤ (s.length : Int) + a) :
    pySlice s a b = [] := by
  unfold pySlice
  have h1 : (if a < 0 then max 0 ((s.length : Int) + a) else min a s.length) = (s.length : Int) + a := by
    rw [if_pos ha]; omega
  have h2 : (if b < 0 then max 0 ((s.length : Int) + b) else min b s.length) = b := by
    rw [if_neg (by omega)]; omega
  simp only [h1, h2]
  have : b.toNat - ((s.length : Int) + a).toNat = 0 := by omega
  simp [this]

/-- A slice with `0 ≤ a ≤ b ≤ len` is `drop a` then `take (b - a)`. -/
theorem pySlice_eq_of_bounds {s : List Char} {a b : Int}
    (ha : 0 ≤ a) (hab : a ≤ b) (hb : b ≤ (s.length : Int)) :
    pySlice s a b = (s.drop a.toNat).take (b.toNat - a.toNat) := by
  unfold pySlice
  have h1 : (if a < 0 then max 0 ((s.length : Int) + a) else min a s.length) = a := by
    rw [if_neg (by omega)]; omega
  have h2 : (if b < 0 then max 0 ((s.length : Int) + b) else min b s.length) = b := by
    rw [if_neg (by omega)]; omega
  simp only [h1, h2]

/-- A slice whose end exceeds the length clamps the end to the length. -/
theorem pySlice_eq_of_over {s : List Char} {a b : Int}
    (ha : 0 ≤ a) (hab : a ≤ (s.length : Int)) (hb : (s.length : Int) ≤ b) :
    pySlice s a b = s.drop a.toNat := by
  unfold pySlice
  have h1 : (if a < 0 then max 0 ((s.length : Int) + a) else min a s.length) = a := by
    rw [if_neg (by omega)]; omega
  have h2 : (if b < 0 then max 0 ((s.length : Int) + b) else min b s.length) = (s.length : Int) := by
    rw [if_neg (by omega)]; omega
  simp only [h1, h2]
  have hle : (s.drop a.toNat).length ≤ ((s.length : Int)).toNat - a.toNat := by
    rw [List.length_drop]; omega
  exact List.take_of_length_le hle

theorem occursAt_sub_mem {s sub : List Char} {i : Nat} (h : occursAt s sub i = true)
    {c : Char} (hc : c ∈ sub) : c ∈ s := by
  unfold occursAt at h
  rw [decide_eq_true_iff] at h
  rw [← h] at hc
  exact List.mem_of_mem_drop (List.mem_of_mem_take hc)

theorem lastOccurrence_eq_none {s sub : List Char}
    (h : ∀ i, occursAt s sub i = false) : lastOccurrence s sub = none := by
  unfold lastOccurrence
  rw [List.filter_eq_nil_iff.2 (by intro i _; simp [h i])]
  rfl

theorem occursAt_true_of_lastOccurrence {s sub : List Char} {i : Nat}
    (h : lastOccurrence s sub = some i) : occursAt s sub i = true := by
  unfold lastOccurrence at h
  have hm := List.mem_of_getLast?_eq_some h
  exact (List.mem_filter.1 hm).2

/-- A separator containing a character absent from `s` never occurs. -/
theorem lastOccurrence_eq_none_of_noWs {s sub : List Char} {c : Char}
    (hc : c ∈ sub) (hcs : c ∉ s) : lastOccurrence s sub = none := by
  apply lastOccurrence_eq_none
  intro i
  by_contra h
  rw [Bool.not_eq_false] at h
  exact hcs (occursAt_sub_mem h hc)

/- ### Facts about the chunker loop -/

/-- Each boundary separator is non-empty, so an adjusted end moves back by
at most 99 positions. -/
theorem boundaryAdjust_ge (text : List Char) (e : Int) :
    e - 99 ≤ boundaryAdjust text e := by
  unfold boundaryAdjust
  cases hh : (seps.filterMap (fun sep =>
      (lastOccurrence (pySlice text (e - 100) e) sep).map
        (fun (i : Nat) => e - 100 + (i : Int) + (sep.length : Int)))).head? with
  | none => rw [Option.getD_none]; omega
  | some e' =>
    rw [Option.getD_some]
    have hmem := List.mem_of_mem_head? hh
    rw [List.mem_filterMap] at hmem
    obtain ⟨sep, hsep, hval⟩ := hmem
    obtain ⟨i, hlo, hval2⟩ := Option.map_eq_some'.1 hval
    have hval3 : e - 100 + (i : Int) + sep.length = e' := hval2
    have hlen : 1 ≤ (sep.length : Int) := by
      simp only [seps, List.mem_cons, List.not_mem_nil, or_false] at hsep
      rcases hsep with h | h | h | h | h
      · subst h; decide
      · subst h; decide
      · subst h; decide
      · subst h; decide
      · subst h; decide
    omega

/-- Each boundary separator contains a whitespace character, so a window
over whitespace-free text is never adjusted. -/
theorem boundaryAdjust_eq_of_noWs {text : List Char} {e : Int}
    (h : ∀ c ∈ pySlice text (e - 100) e, isPySpace c = false) :
    boundaryAdjust text e = e := by
  unfold boundaryAdjust
  have hnil : (seps.filterMap (fun sep =>
      (lastOccurrence (pySlice text (e - 100) e) sep).map
        (fun (i : Nat) => e - 100 + (i : Int) + (sep.length : Int)))) = [] := by
    rw [List.filterMap_eq_nil_iff]
    intro sep hsep
    have hws : ∃ c ∈ sep, isPySpace c = true := by
      simp only [seps, List.mem_cons, List.not_mem_nil, or_false] at hsep
      rcases hsep with hs | hs | hs | hs | hs
      · subst hs; exact ⟨' ', by decide, by decide⟩
      · subst hs; exact ⟨' ', by decide, by decide⟩
      · subst hs; exact ⟨' ', by decide, by decide⟩
      · subst hs; exact ⟨'\n', by decide, by decide⟩
      · subst hs; exact ⟨'\n', by decide, by decide⟩
    obtain ⟨c, hc, hcws⟩ := hws
    have : lastOccurrence (pySlice text (e - 100) e) sep = none := by
      apply lastOccurrence_eq_none_of_noWs hc
      intro hmem
      rw [h c hmem] at hcws
      cases hcws
    rw [this]
    rfl
  rw [hnil]
  rfl

/-- An empty lookback window is never adjusted. -/
theorem boundaryAdjust_eq_of_nil {text : List Char} {e : Int}
    (h : pySlice text (e - 100) e = []) : boundaryAdjust text e = e :=
  boundaryAdjust_eq_of_noWs (by rw [h]; intro c hc; cases hc)

/-- When `overlap + 100 ≤ chunk_size` (and `overlap` is non-negative), every
loop iteration advances `start` by at least one position: this is the margin
the boundary search can eat from the window. -/
theorem nextStart_ge {text : List Char} {cs ov : Int} (h0 : 0 ≤ ov)
    (h1 : ov + 100 ≤ cs) (start : Int) :
    start + 1 ≤ nextStart text cs ov start := by
  unfold nextStart windowEnd
  by_cases he : start + cs < (text.length : Int)
  · rw [if_pos he]
    have hadj := boundaryAdjust_ge text (start + cs)
    by_cases he2 : boundaryAdjust text (start + cs) < (text.length : Int)
    · rw [if_pos he2]; omega
    · rw [if_neg he2]; omega
  · rw [if_neg he, if_neg he]
    omega

theorem chunkLoop_isSome {text : List Char} {cs ov : Int} (h0 : 0 ≤ ov)
    (h1 : ov + 100 ≤ cs) :
    ∀ (fuel : Nat) (start : Int) (acc : List (List Char)),
      max 0 ((text.length : Int) - start) < fuel →
      (chunkLoop text cs ov fuel start acc).isSome := by
  intro fuel
  induction fuel with
  | zero => intro start acc hf; omega
  | succ f ih =>
    intro start acc hf
    rw [chunkLoop]
    by_cases hs : start < (text.length : Int)
    · rw [if_pos hs]
      apply ih
      have := @nextStart_ge text cs ov h0 h1 start
      omega
    · rw [if_neg hs]
      rfl

/-- Over whitespace-only text every cut chunk strips to empty and is
skipped, so the loop returns its accumulator unchanged. -/
theorem chunkLoop_allWs {text : List Char} {cs ov : Int}
    (hws : ∀ c ∈ text, isPySpace c = true) :
    ∀ (fuel : Nat) (start : Int) (acc r : List (List Char)),
      chunkLoop text cs ov fuel start acc = some r → r = acc := by
  intro fuel
  induction fuel with
  | zero => intro start acc r h; cases h
  | succ f ih =>
    intro start acc r h
    rw [chunkLoop] at h
    by_cases hs : start < (text.length : Int)
    · rw [if_pos hs] at h
      have hempty : (chunkAt text cs start).isEmpty = true := by
        unfold chunkAt
        rw [pyStrip_of_allWs (fun c hc => hws c (mem_of_mem_pySlice hc))]
        rfl
      rw [hempty, if_pos rfl] at h
      exact ih _ _ _ h
    · rw [if_neg hs] at h
      cases h
      rfl

/-- Whitespace-only text longer than the chunk size produces no chunk at
all under the default configuration. -/
theorem chunk_text_allWs {text : List Char}
    (hws : ∀ c ∈ text, isPySpace c = true) (hlen : 1500 < text.length) :
    chunk_text text 1500 200 = some [] := by
  unfold chunk_text chunkTextFueled
  rw [if_neg (by omega)]
  have hsome := @chunkLoop_isSome text 1500 200 (by omega) (by omega)
    (text.length + 1) 0 [] (by omega)
  cases hres : chunkLoop text 1500 200 (text.length + 1) 0 [] with
  | none => rw [hres] at hsome; cases hsome
  | some r =>
    have := chunkLoop_allWs hws _ _ _ _ hres
    rw [this]

/- ### A configuration on which the loop never terminates -/

/-- A 200-character text whose single line break sits at index 1: with
`chunk_size = 101` and `overlap = 100` the loop cuts at that break, sends
`start` to `-98`, and cycles through the negative starts forever. -/
def c1text : List Char := 'a' :: '\n' :: List.replicate 198 'a'

theorem c1text_length : c1text.length = 200 := by
  unfold c1text
  rw [List.length_cons, List.length_cons, List.length_replicate]

/-- On the cycling interval `[-98, -2]` the lookback slice wraps to empty,
so the window is not adjusted and `start` advances by exactly one. -/
theorem c1_nextStart_mid {start : Int} (h1 : -98 ≤ start) (h2 : start ≤ -2) :
    nextStart c1text 101 100 start = start + 1 := by
  have hadj : boundaryAdjust c1text (start + 101) = start + 101 := by
    apply boundaryAdjust_eq_of_nil
    apply pySlice_eq_nil_of_wrap
    · omega
    · omega
    · rw [c1text_length]; omega
  have hwe : windowEnd c1text 101 start = start + 101 := by
    unfold windowEnd
    rw [if_pos (by rw [c1text_length]; omega), hadj]
  unfold nextStart
  rw [hwe, if_pos (by rw [c1text_length]; omega)]
  omega

/-- From any start in `[-98, -1]` the loop never exits: `-1` jumps back to
`-98` (the line break is found again) and every other start advances by
one, so the whole interval is revisited forever, whatever the fuel. -/
theorem c1_cycle : ∀ (fuel : Nat) (start : Int), -98 ≤ start → start ≤ -1 →
    ∀ acc, chunkLoop c1text 101 100 fuel start acc = none := by
  intro fuel
  induction fuel with
  | zero => intro start h1 h2 acc; rfl
  | succ f ih =>
    intro start h1 h2 acc
    rw [chunkLoop, if_pos (by rw [c1text_length]; omega)]
    by_cases hs : start = -1
    · subst hs
      have hn : nextStart c1text 101 100 (-1) = -98 := by
        set_option maxRecDepth 8000 in decide
      rw [hn]
      exact ih (-98) (by norm_num) (by norm_num) _
    · rw [c1_nextStart_mid h1 (by omega)]
      exact ih _ (by omega) (by omega) _

/-- With `chunk_size = 101` and `overlap = 100` on `c1text`, the chunking
loop runs out of any amount of fuel: the Python loop never terminates. -/
theorem chunkTextFueled_c1_none : ∀ fuel, chunkTextFueled c1text 101 100 fuel = none := by
  intro fuel
  unfold chunkTextFueled
  rw [if_neg (by rw [c1text_length]; omega)]
  cases fuel with
  | zero => rfl
  | succ f =>
    rw [chunkLoop, if_pos (by rw [c1text_length]; omega)]
    have hn0 : nextStart c1text 101 100 0 = -98 := by
      set_option maxRecDepth 8000 in decide
    rw [hn0]
    exact c1_cycle f (-98) (by norm_num) (by norm_num) _

/- ### Chunking whitespace-free text -/

theorem isEmpty_false_of_length_pos {α : Type} {l : List α} (h : 0 < l.length) :
    l.isEmpty = false := by
  cases l with
  | nil => cases h
  | cons x t => rfl

theorem windowEnd_noWs {text : List Char} {cs start : Int}
    (hws : ∀ c ∈ text, isPySpace c = false) (h : start + cs < (text.length : Int)) :
    windowEnd text cs start = start + cs := by
  unfold windowEnd
  rw [if_pos h, boundaryAdjust_eq_of_noWs (fun c hc => hws c (mem_of_mem_pySlice hc))]

theorem windowEnd_last {text : List Char} {cs start : Int}
    (h : ¬ start + cs < (text.length : Int)) :
    windowEnd text cs start = start + cs := by
  unfold windowEnd
  rw [if_neg h]

theorem nextStart_noWs {text : List Char} {cs ov start : Int}
    (hws : ∀ c ∈ text, isPySpace c = false) (h : start + cs < (text.length : Int)) :
    nextStart text cs ov start = start + cs - ov := by
  unfold nextStart
  rw [windowEnd_noWs hws h, if_pos h]

theorem nextStart_last {text : List Char} {cs ov start : Int}
    (h : ¬ start + cs < (text.length : Int)) :
    nextStart text cs ov start = start + cs := by
  unfold nextStart
  rw [windowEnd_last h, if_neg h]

theorem chunkAt_noWs {text : List Char} {cs start : Int}
    (hws : ∀ c ∈ text, isPySpace c = false) (h : start + cs < (text.length : Int))
    (h0 : 0 ≤ start) (hcs : 0 ≤ cs) :
    chunkAt text cs start = (text.drop start.toNat).take ((start + cs).toNat - start.toNat) := by
  unfold chunkAt
  rw [windowEnd_noWs hws h, pyStrip_of_noWs (fun c hc => hws c (mem_of_mem_pySlice hc))]
  exact pySlice_eq_of_bounds h0 (by omega) (le_of_lt h)

theorem chunkAt_last {text : List Char} {cs start : Int}
    (hws : ∀ c ∈ text, isPySpace c = false) (h : ¬ start + cs < (text.length : Int))
    (h0 : 0 ≤ start) (h1 : start ≤ (text.length : Int)) :
    chunkAt text cs start = text.drop start.toNat := by
  unfold chunkAt
  rw [windowEnd_last h, pyStrip_of_noWs (fun c hc => hws c (mem_of_mem_pySlice hc))]
  exact pySlice_eq_of_over h0 h1 (by omega)

theorem chunkLoop_step_nonempty {text : List Char} {cs ov : Int} {fuel : Nat}
    {start : Int} {acc : List (List Char)} (hstart : start < (text.length : Int))
    (hne : (chunkAt text cs start).isEmpty = false) :
    chunkLoop text cs ov (fuel + 1) start acc =
      chunkLoop text cs ov fuel (nextStart text cs ov start) (acc ++ [chunkAt text cs start]) := by
  rw [chunkLoop, if_pos hstart]
  simp [hne]

theorem chunkLoop_exit {text : List Char} {cs ov : Int} {fuel : Nat}
    {start : Int} {acc : List (List Char)} (h : ¬ start < (text.length : Int)) :
    chunkLoop text cs ov (fuel + 1) start acc = some acc := by
  rw [chunkLoop, if_neg h]

/-- Chunking a whitespace-free text of exactly 4000 characters with the
default configuration: windows `[0,1500)`, `[1300,2800)`, `[2600,4000)`,
none boundary-adjusted (no separator can occur without whitespace), none
stripped (no whitespace), so exactly three chunks come out. -/
theorem chunk_text_noWs_4000 {text : List Char} (hlen : text.length = 4000)
    (hws : ∀ c ∈ text, isPySpace c = false) :
    chunk_text text 1500 200 =
      some [text.take 1500, (text.drop 1300).take 1500, text.drop 2600] := by
  have hl : (text.length : Int) = 4000 := by rw [hlen]; rfl
  have e1 : chunkAt text 1500 0 = text.take 1500 := by
    rw [chunkAt_noWs hws (by omega) (by norm_num) (by norm_num)]
    norm_num [show Int.toNat 1500 = 1500 from rfl]
  have hne1 : (chunkAt text 1500 0).isEmpty = false := by
    rw [e1]
    apply isEmpty_false_of_length_pos
    rw [List.length_take, hlen]
    norm_num
  have s1 : nextStart text 1500 200 0 = 1300 := by
    rw [nextStart_noWs hws (by omega)]
    norm_num
  have e2 : chunkAt text 1500 1300 = (text.drop 1300).take 1500 := by
    rw [chunkAt_noWs hws (by omega) (by norm_num) (by norm_num)]
    norm_num [show Int.toNat 2800 = 2800 from rfl, show Int.toNat 1300 = 1300 from rfl]
  have hne2 : (chunkAt text 1500 1300).isEmpty = false := by
    rw [e2]
    apply isEmpty_false_of_length_pos
    rw [List.length_take, List.length_drop, hlen]
    norm_num
  have s2 : nextStart text 1500 200 1300 = 2600 := by
    rw [nextStart_noWs hws (by omega)]
    norm_num
  have e3 : chunkAt text 1500 2600 = text.drop 2600 := by
    rw [chunkAt_last hws (by omega) (by norm_num) (by omega)]
    norm_num [show Int.toNat 2600 = 2600 from rfl]
  have hne3 : (chunkAt text 1500 2600).isEmpty = false := by
    rw [e3]
    apply isEmpty_false_of_length_pos
    rw [List.length_drop, hlen]
    norm_num
  have s3 : nextStart text 1500 200 2600 = 4100 := by
    rw [nextStart_last (by omega)]
    norm_num
  unfold chunk_text chunkTextFueled
  rw [if_neg (by omega), hlen]
  rw [show (4000 : Nat) + 1 = 3999 + 1 + 1 from rfl]
  rw [chunkLoop_step_nonempty (by omega) hne1, s1, e1]
  rw [show (3999 : Nat) + 1 = 3998 + 1 + 1 from rfl]
  rw [chunkLoop_step_nonempty (by omega) hne2, s2, e2]
  rw [show (3998 : Nat) + 1 = 3997 + 1 + 1 from rfl]
  rw [chunkLoop_step_nonempty (by omega) hne3, s3, e3]
  rw [chunkLoop_exit (by omega)]
  simp

/- ### Claim C1 -/

/-- C1, counterexample.  The claim asserts that for every configuration with
`overlap < max_chunk_size` the advance of `start` is clamped so that it
never regresses and the loop terminates.  With `chunk_size = 101`,
`overlap = 100` (a valid configuration by that reading) on `c1text`, the
very first iteration sends `start` from `0` to `-98`, and no amount of
fuel makes the loop exit: `chunk_text` does not terminate and `start`
does regress - the source has no clamp. -/
theorem c1_counterexample :
    (100 : Int) < 101 ∧
      (¬ ∃ fuel r, chunkTextFueled c1text 101 100 fuel = some r) ∧
      nextStart c1text 101 100 0 < 0 := by
  refine ⟨by norm_num, ?_, by set_option maxRecDepth 8000 in decide⟩
  rintro ⟨fuel, r, hr⟩
  rw [chunkTextFueled_c1_none fuel] at hr
  cases hr

/-- C1, amended: for every input text and every configuration with
`0 ≤ overlap` and `overlap + 100 ≤ max_chunk_size` (the 100-character
boundary lookback is the extra margin the unclamped advance needs),
`chunk_text` terminates with the text fully consumed, and every loop
iteration strictly increases `start`. -/
theorem chunk_text_terminates (text : List Char) (cs ov : Int)
    (h0 : 0 ≤ ov) (h1 : ov + 100 ≤ cs) :
    (chunk_text text cs ov).isSome ∧
      ∀ start : Int, start + 1 ≤ nextStart text cs ov start := by
  constructor
  · unfold chunk_text chunkTextFueled
    by_cases hle : (text.length : Int) ≤ cs
    · rw [if_pos hle]; rfl
    · rw [if_neg hle]
      exact chunkLoop_isSome h0 h1 _ 0 [] (by omega)
  · exact nextStart_ge h0 h1

/-- C1, witness: the default configuration `overlap = 200 < 1400 =
max_chunk_size - 100` terminates on a 4000-character text. -/
theorem chunk_text_terminates_witness :
    (0 : Int) ≤ 200 ∧ (200 : Int) + 100 ≤ 1500 ∧
      ((chunk_text (List.replicate 4000 'a') 1500 200).isSome ∧
        ∀ start : Int, start + 1 ≤ nextStart (List.replicate 4000 'a') 1500 200 start) :=
  ⟨by norm_num, by norm_num,
    chunk_text_terminates (List.replicate 4000 'a') 1500 200 (by norm_num) (by norm_num)⟩

/- ### Claim C2 -/

/-- C2, counterexample.  The claim asserts that `overlap ≥ max_chunk_size`
fails fast with a `ChunkingConfigError`.  No such validation (and no such
error type) exists anywhere in the source: with `overlap = max_chunk_size
= 5` the call happily returns a chunk sequence. -/
theorem c2_counterexample :
    (5 : Int) ≤ 5 ∧ chunk_text ('a' :: 'b' :: []) 5 5 = some [('a' :: 'b' :: [])] :=
  ⟨le_refl 5, by decide⟩

/-- C2, amended: `chunk_text` performs no validation of `overlap` against
`max_chunk_size` and raises no configuration error; with `overlap ≥
max_chunk_size` and a text no longer than `max_chunk_size` it still
returns the single-chunk sequence `[text]`. -/
theorem chunk_text_no_validation (text : List Char) (cs ov : Int)
    (_hov : cs ≤ ov) (hlen : (text.length : Int) ≤ cs) :
    chunk_text text cs ov = some [text] := by
  unfold chunk_text chunkTextFueled
  rw [if_pos hlen]

/-- C2, witness. -/
theorem chunk_text_no_validation_witness :
    (5 : Int) ≤ 7 ∧ ((('a' :: 'b' :: []) : List Char).length : Int) ≤ 5 ∧
      chunk_text ('a' :: 'b' :: []) 5 7 = some [('a' :: 'b' :: [])] :=
  ⟨by norm_num, by decide, chunk_text_no_validation ('a' :: 'b' :: []) 5 7 (by norm_num) (by decide)⟩

/- ### Claim C6 -/

/-- C6, counterexample.  The claim asserts that a short text comes back
whitespace-trimmed.  The source's short-circuit (line 28-29) returns
`[text]` verbatim: on `" a "` the single chunk keeps its padding, so it is
not the trimmed input. -/
theorem c6_counterexample :
    chunk_text (' ' :: 'a' :: ' ' :: []) 1500 200 = some [(' ' :: 'a' :: ' ' :: [])] ∧
      pyStrip (' ' :: 'a' :: ' ' :: []) = ['a'] ∧
      chunk_text (' ' :: 'a' :: ' ' :: []) 1500 200 ≠
        some [pyStrip (' ' :: 'a' :: ' ' :: [])] :=
  ⟨by decide, by decide, by decide⟩

/-- C6, amended: for every text whose length is at most `max_chunk_size`,
`chunk_text` returns exactly one chunk, and that chunk is the input text
verbatim (untrimmed). -/
theorem chunk_text_short (text : List Char) (cs ov : Int)
    (hlen : (text.length : Int) ≤ cs) : chunk_text text cs ov = some [text] := by
  unfold chunk_text chunkTextFueled
  rw [if_pos hlen]

/-- C6, witness. -/
theorem chunk_text_short_witness :
    (((' ' :: 'a' :: []) : List Char).length : Int) ≤ 1500 ∧
      chunk_text (' ' :: 'a' :: []) 1500 200 = some [(' ' :: 'a' :: [])] :=
  ⟨by decide, chunk_text_short (' ' :: 'a' :: []) 1500 200 (by decide)⟩

/- ### Claim C5 -/

/-- C5, counterexample.  The claim quantifies over every text of length
4000, but a 4000-character all-whitespace text produces zero chunks (every
window strips to empty), not three. -/
theorem c5_counterexample :
    (List.replicate 4000 ' ').length = 4000 ∧
      chunk_text (List.replicate 4000 ' ') 1500 200 = some [] ∧
      (chunk_text (List.replicate 4000 ' ') 1500 200).map List.length ≠ some 3 := by
  have hws : ∀ c ∈ List.replicate 4000 ' ', isPySpace c = true := by
    intro c hc
    rw [List.eq_of_mem_replicate hc]
    rfl
  have hlen : (List.replicate 4000 ' ').length = 4000 := by
    rw [List.length_replicate]
  have h := chunk_text_allWs hws (by rw [hlen]; norm_num)
  refine ⟨hlen, h, ?_⟩
  rw [h]
  simp

/-- C5, amended: for every whitespace-free text of length 4000 (whitespace
freedom rules out both boundary-separator hits and empty-after-strip
windows), `chunk_text` with the default configuration produces exactly 3
chunks, and `index_note` on such a body stores chunk records with ordinals
0, 1, 2, each carrying `total_chunks = 3`. -/
theorem chunk3_and_index_ordinals {text : List Char} (hlen : text.length = 4000)
    (hws : ∀ c ∈ text, isPySpace c = false)
    (ins : Nat → Option (List Char)) (hins : ∀ i, (ins i).isSome)
    (note_id title : List Char) (tags : List (List Char)) (ca ua : List Char) :
    (∃ c0 c1 c2, chunk_text text 1500 200 = some [c0, c1, c2]) ∧
      ((index_note ins note_id title text tags ca ua).inserted.map
        (fun r => r.chunk_index)) = [0, 1, 2] ∧
      ∀ r ∈ (index_note ins note_id title text tags ca ua).inserted,
        r.total_chunks = 3 := by
  have hct := chunk_text_noWs_4000 hlen hws
  obtain ⟨u0, h0⟩ := Option.isSome_iff_exists.1 (hins 0)
  obtain ⟨u1, h1⟩ := Option.isSome_iff_exists.1 (hins 1)
  obtain ⟨u2, h2⟩ := Option.isSome_iff_exists.1 (hins 2)
  refine ⟨⟨_, _, _, hct⟩, ?_, ?_⟩
  · simp only [index_note, hct, Option.getD_some]
    simp [insertChunks, h0, h1, h2]
  · simp only [index_note, hct, Option.getD_some]
    simp [insertChunks, h0, h1, h2]

/-- C5, witness: 4000 letters. -/
theorem chunk3_and_index_ordinals_witness :
    (List.replicate 4000 'a').length = 4000 ∧
      (∀ c ∈ List.replicate 4000 'a', isPySpace c = false) ∧
      ((∃ c0 c1 c2, chunk_text (List.replicate 4000 'a') 1500 200 = some [c0, c1, c2]) ∧
        ((index_note (fun _ => some ['u']) ['n'] ['t'] (List.replicate 4000 'a') [] [] []).inserted.map
          (fun r => r.chunk_index)) = [0, 1, 2] ∧
        ∀ r ∈ (index_note (fun _ => some ['u']) ['n'] ['t'] (List.replicate 4000 'a') [] [] []).inserted,
          r.total_chunks = 3) :=
  ⟨by rw [List.length_replicate],
    fun c hc => by rw [List.eq_of_mem_replicate hc]; rfl,
    chunk3_and_index_ordinals (by rw [List.length_replicate])
      (fun c hc => by rw [List.eq_of_mem_replicate hc]; rfl)
      (fun _ => some ['u']) (fun i => rfl) ['n'] ['t'] [] [] []⟩

/- ### Claim C10 -/

/-- C10: a whitespace-only body longer than `max_chunk_size` chunks to the
empty list; `index_note` on it deletes the note's previous chunk records,
inserts nothing, and returns `None` - the same value a store-failure run
returns (here: a run whose first insert raises, on a body that does
produce chunks), so the caller cannot tell the two apart. -/
theorem index_note_allWs (content : List Char)
    (hws : ∀ c ∈ content, isPySpace c = true) (hlen : 1500 < content.length) :
    chunk_text content 1500 200 = some [] ∧
      (∀ ins note_id title tags ca ua,
        index_note ins note_id title content tags ca ua = ⟨note_id, [], none⟩) ∧
      (∀ note_id title tags ca ua,
        (index_note (fun _ => none) note_id title (List.replicate 4000 'a') tags ca ua).ret
          = none) := by
  have h := chunk_text_allWs hws hlen
  refine ⟨h, ?_, ?_⟩
  · intro ins nid t tg ca ua
    simp only [index_note, h, Option.getD_some]
    rfl
  · intro nid t tg ca ua
    have h4 := @chunk_text_noWs_4000 (List.replicate 4000 'a')
      (by rw [List.length_replicate])
      (by intro c hc; rw [List.eq_of_mem_replicate hc]; rfl)
    simp only [index_note, h4, Option.getD_some]
    simp [insertChunks]

/-- C10, witness: 1501 spaces. -/
theorem index_note_allWs_witness :
    (∀ c ∈ List.replicate 1501 ' ', isPySpace c = true) ∧
      1500 < (List.replicate 1501 ' ').length ∧
      (chunk_text (List.replicate 1501 ' ') 1500 200 = some [] ∧
        (∀ ins note_id title tags ca ua,
          index_note ins note_id title (List.replicate 1501 ' ') tags ca ua =
            ⟨note_id, [], none⟩) ∧
        (∀ note_id title tags ca ua,
          (index_note (fun _ => none) note_id title (List.replicate 4000 'a') tags ca ua).ret
            = none)) :=
  ⟨fun c hc => by rw [List.eq_of_mem_replicate hc]; rfl,
    by rw [List.length_replicate]; norm_num,
    index_note_allWs (List.replicate 1501 ' ')
      (fun c hc => by rw [List.eq_of_mem_replicate hc]; rfl)
      (by rw [List.length_replicate]; norm_num)⟩

/- ### Facts about the stable sort -/

theorem sInsert_perm (le : α → α → Bool) (x : α) (l : List α) :
    (sInsert le x l).Perm (x :: l) := by
  induction l with
  | nil => exact List.Perm.refl _
  | cons y ys ih =>
    unfold sInsert
    by_cases h : le x y
    · rw [if_pos h]
    · rw [if_neg h]
      exact (ih.cons y).trans (List.Perm.swap x y ys)

theorem sSort_perm (le : α → α → Bool) (l : List α) : (sSort le l).Perm l := by
  induction l with
  | nil => exact List.Perm.refl _
  | cons x xs ih =>
    unfold sSort
    exact (sInsert_perm le x (sSort le xs)).trans (ih.cons x)

theorem mem_sInsert {le : α → α → Bool} {x y : α} {l : List α} :
    y ∈ sInsert le x l ↔ y = x ∨ y ∈ l := by
  rw [(sInsert_perm le x l).mem_iff, List.mem_cons]

/- ### Facts about the semantic-search dedup -/

theorem dedupByNote_keys_nodup :
    ∀ (objs : List SObj) (d : List (List Char × SearchResult)),
      (d.map (fun p => p.1)).Nodup →
      ((dedupByNote objs d).map (fun p => p.1)).Nodup := by
  intro objs
  induction objs with
  | nil => intro d h; exact h
  | cons o rest ih =>
    intro d h
    rw [dedupByNote]
    by_cases hc : d.any (fun p => decide (p.1 = o.note_id))
    · rw [if_pos hc]
      exact ih d h
    · rw [if_neg hc]
      apply ih
      rw [List.map_append]
      apply List.Nodup.append h (List.nodup_singleton _)
      intro a ha hb
      simp only [List.map_cons, List.map_nil, List.mem_singleton] at hb
      subst hb
      rw [List.mem_map] at ha
      obtain ⟨p, hp, hp2⟩ := ha
      rw [List.any_eq_true] at hc
      exact hc ⟨p, hp, by rw [decide_eq_true_iff]; exact hp2⟩

theorem dedupByNote_mem :
    ∀ (objs : List SObj) (d : List (List Char × SearchResult))
      (p : List Char × SearchResult), p ∈ dedupByNote objs d →
      p ∈ d ∨ ((∀ q ∈ d, q.1 ≠ p.1) ∧
        ∃ o, objs.find? (fun o => decide (o.note_id = p.1)) = some o ∧
          p = (o.note_id, toSearchResult o)) := by
  intro objs
  induction objs with
  | nil => intro d p hp; exact Or.inl hp
  | cons o rest ih =>
    intro d p hp
    rw [dedupByNote] at hp
    by_cases hc : d.any (fun q => decide (q.1 = o.note_id))
    · rw [if_pos hc] at hp
      rcases ih d p hp with h | ⟨hnot, o', hfind, hval⟩
      · exact Or.inl h
      · refine Or.inr ⟨hnot, o', ?_, hval⟩
        have hne : ¬ (o.note_id = p.1) := by
          intro he
          rw [List.any_eq_true] at hc
          obtain ⟨q, hq, hq2⟩ := hc
          rw [decide_eq_true_iff] at hq2
          exact hnot q hq (by rw [hq2, he])
        rw [List.find?_cons_of_neg _ (by simpa using hne)]
        exact hfind
    · rw [if_neg hc] at hp
      rw [List.any_eq_true] at hc
      rcases ih _ p hp with h | ⟨hnot, o', hfind, hval⟩
      · rcases List.mem_append.1 h with h1 | h2
        · exact Or.inl h1
        · rw [List.mem_singleton] at h2
          subst h2
          refine Or.inr ⟨?_, o, ?_, rfl⟩
          · intro q hq he
            exact hc ⟨q, hq, by rw [decide_eq_true_iff]; exact he⟩
          · rw [List.find?_cons_of_pos _ (by simp)]
      · refine Or.inr ⟨fun q hq => hnot q (List.mem_append_left _ hq), o', ?_, hval⟩
        have hno : ¬ (o.note_id = p.1) := by
          intro he
          exact hnot (o.note_id, toSearchResult o) (by simp) he
        rw [List.find?_cons_of_neg _ (by simpa using hno)]
        exact hfind

theorem dedupByNote_entry_key {objs : List SObj} {p : List Char × SearchResult}
    (hp : p ∈ dedupByNote objs []) : p.2.note_id = p.1 := by
  rcases dedupByNote_mem objs [] p hp with h | ⟨_, o, _, hval⟩
  · cases h
  · rw [hval]
    rfl

/- ### Claim C7 -/

/-- C7: whatever chunk matches the store returns and whatever the limit,
`semantic_search` lists each `note_id` at most once, returns at most
`limit` results, and every result is built from the first-encountered
match of its document in the store's native ranking (so it carries that
match's reported distance, not a re-computed one). -/
theorem semantic_search_dedup (objs : List SObj) (limit : Nat) :
    ((semantic_search objs limit).map (fun r => r.note_id)).Nodup ∧
      (semantic_search objs limit).length ≤ limit ∧
      ∀ r ∈ semantic_search objs limit,
        ∃ o, objs.find? (fun o => decide (o.note_id = r.note_id)) = some o ∧
          r = toSearchResult o := by
  have hkeys : ((dedupByNote objs []).map (fun p => p.1)).Nodup :=
    dedupByNote_keys_nodup objs [] (by simp)
  have hvalkeys :
      (((dedupByNote objs []).map (fun p => p.2)).map (fun r => r.note_id)).Nodup := by
    rw [List.map_map]
    have : ((dedupByNote objs []).map (fun p => p.2.note_id)).Nodup := by
      rw [List.map_congr_left (fun p hp => dedupByNote_entry_key hp)]
      exact hkeys
    simpa using this
  have hperm := sSort_perm
    (fun a b => decide (b.relevance_score ≤ a.relevance_score))
    ((dedupByNote objs []).map (fun p => p.2))
  constructor
  · unfold semantic_search
    rw [List.map_take]
    apply List.Sublist.nodup (List.take_sublist _ _)
    exact (hperm.map (fun r => r.note_id)).nodup_iff.2 hvalkeys
  constructor
  · unfold semantic_search
    exact List.length_take_le _ _
  · intro r hr
    unfold semantic_search at hr
    have hr2 := hperm.mem_iff.1 (List.mem_of_mem_take hr)
    rw [List.mem_map] at hr2
    obtain ⟨p, hp, hp2⟩ := hr2
    rcases dedupByNote_mem objs [] p hp with h | ⟨_, o, hfind, hval⟩
    · cases h
    · refine ⟨o, ?_, by rw [← hp2, hval]⟩
      have hkey : r.note_id = p.1 := by
        rw [← hp2]
        exact dedupByNote_entry_key hp
      rw [hkey]
      exact hfind

/- ### Claim C3 -/

/-- A chunk match whose reported distance is exactly 0 (an identical
vector). -/
def c3obj : SObj :=
  ⟨('n' :: []), ('t' :: []), ('c' :: []), [], [], [], 0, 1, some 0⟩

/-- C3: the claim (and the spec) promise `relevance_score = 1 - distance`,
so a reported distance of 0 should score 1.  The source's truthiness guard
`1 - obj.metadata.distance if obj.metadata.distance else 0.0` treats the
float `0.0` like `None`, so the perfect match is scored `0.0`, not `1`. -/
theorem semantic_search_zero_distance :
    semantic_search (c3obj :: []) 5 = [toSearchResult c3obj] ∧
      (toSearchResult c3obj).relevance_score = 0 ∧
      (1 : ℚ) - 0 = 1 ∧ (0 : ℚ) ≠ 1 := by
  refine ⟨rfl, by simp [toSearchResult, c3obj], by norm_num, by norm_num⟩

/- ### Sortedness of the stable sort, and uniqueness of sorted orders -/

theorem sInsert_pairwise {α β : Type} [LinearOrder β] {key : α → β} {x : α}
    {l : List α} (h : l.Pairwise (fun a b => key a ≤ key b)) :
    (sInsert (fun a b => decide (key a ≤ key b)) x l).Pairwise
      (fun a b => key a ≤ key b) := by
  induction l with
  | nil => exact List.pairwise_singleton _ _
  | cons y ys ih =>
    rw [List.pairwise_cons] at h
    obtain ⟨hy, hys⟩ := h
    unfold sInsert
    by_cases hxy : key x ≤ key y
    · rw [if_pos (by rw [decide_eq_true_iff]; exact hxy)]
      rw [List.pairwise_cons]
      refine ⟨?_, List.pairwise_cons.2 ⟨hy, hys⟩⟩
      intro z hz
      rcases List.mem_cons.1 hz with h | hz'
      · rw [h]; exact hxy
      · exact le_trans hxy (hy z hz')
    · rw [if_neg (by simp [hxy])]
      rw [List.pairwise_cons]
      refine ⟨?_, ih hys⟩
      intro z hz
      rcases mem_sInsert.1 hz with h | hz'
      · rw [h]; exact le_of_not_le hxy
      · exact hy z hz'

theorem sSort_pairwise {α β : Type} [LinearOrder β] (key : α → β) (l : List α) :
    (sSort (fun a b => decide (key a ≤ key b)) l).Pairwise
      (fun a b => key a ≤ key b) := by
  induction l with
  | nil => exact List.Pairwise.nil
  | cons x xs ih => exact sInsert_pairwise ih

/-- Two lists that are permutations of each other, both sorted by a key
without duplicates, are equal. -/
theorem eq_of_perm_sorted_keys {α β : Type} [LinearOrder β] {key : α → β} :
    ∀ {l₁ l₂ : List α}, l₁.Perm l₂ →
      l₁.Pairwise (fun a b => key a ≤ key b) →
      l₂.Pairwise (fun a b => key a ≤ key b) →
      (l₂.map key).Nodup → l₁ = l₂ := by
  intro l₁
  induction l₁ with
  | nil =>
    intro l₂ hp _ _ _
    rw [hp.symm.eq_nil]
  | cons a t ih =>
    intro l₂ hp hs1 hs2 hnd
    cases l₂ with
    | nil => cases hp.eq_nil
    | cons b t₂ =>
      have ha2 : a ∈ b :: t₂ := hp.mem_iff.1 (by simp)
      have hb1 : b ∈ a :: t := hp.mem_iff.2 (by simp)
      have hkab : key a ≤ key b := by
        rcases List.mem_cons.1 hb1 with h | hb'
        · rw [h]
        · exact (List.pairwise_cons.1 hs1).1 b hb'
      have hkba : key b ≤ key a := by
        rcases List.mem_cons.1 ha2 with h | ha'
        · rw [h]
        · exact (List.pairwise_cons.1 hs2).1 a ha'
      have hab : a = b := by
        rcases List.mem_cons.1 ha2 with h | ha'
        · exact h
        · exfalso
          rw [List.map_cons, List.nodup_cons] at hnd
          exact hnd.1 (by
            rw [le_antisymm hkba hkab]
            exact List.mem_map_of_mem key ha')
      subst hab
      have hpt : t.Perm t₂ := hp.cons_inv
      rw [ih hpt (List.pairwise_cons.1 hs1).2 (List.pairwise_cons.1 hs2).2
        (by rw [List.map_cons, List.nodup_cons] at hnd; exact hnd.2)]

/-- Filtering a duplicate-free list by a predicate that exactly one member
satisfies yields that member alone. -/
theorem filter_eq_singleton {α : Type} {l : List α} {p : α → Bool} {a : α}
    (hnd : l.Nodup) (ha : a ∈ l) (hpa : p a = true)
    (huniq : ∀ x ∈ l, p x = true → x = a) : l.filter p = [a] := by
  induction l with
  | nil => cases ha
  | cons x t ih =>
    rw [List.nodup_cons] at hnd
    rcases List.mem_cons.1 ha with h | hat
    · subst h
      rw [List.filter_cons, if_pos hpa]
      rw [List.filter_eq_nil_iff.2 ?_]
      intro y hy hpy
      exact hnd.1 ((huniq y (List.mem_cons_of_mem _ hy) hpy) ▸ hy)
    · have hpx : ¬ p x = true := by
        intro hpx
        have := huniq x (List.mem_cons_self _ _) hpx
        subst this
        exact hnd.1 hat
      rw [List.filter_cons, if_neg hpx]
      exact ih hnd.2 hat (fun y hy hpy => huniq y (List.mem_cons_of_mem _ hy) hpy)

/- ### Claim C8 -/

/-- C8: for a document whose chunk records are present with contiguous
ordinals `0..n-1` (each carrying `total_chunks = n`), however the store
orders its ranked reply and its unranked fetch, `search_within_note` with
window radius 0 returns exactly the best-matching chunk's text, and with
any radius at least `n` it returns every chunk of the document joined in
ascending ordinal order with a blank-line separator. -/
theorem search_within_note_window (L ranked fetched : List SObj) (n : Nat)
    (hn : 0 < n)
    (hkeys : L.map (fun o => o.chunk_index) = (List.range n).map (fun (i : Nat) => (i : Int)))
    (htotal : ∀ o ∈ L, o.total_chunks = (n : Int))
    (hr : ranked.Perm L) (hf : fetched.Perm L) :
    ∃ best rest, ranked = best :: rest ∧
      (search_within_note ranked fetched 0).map (fun w => w.context) =
        some best.content ∧
      ∀ radius : Int, (n : Int) ≤ radius →
        (search_within_note ranked fetched radius).map (fun w => w.context) =
          some (List.intercalate ('\n' :: '\n' :: []) (L.map (fun o => o.content))) := by
  have hcast : Function.Injective (fun i : Nat => (i : Int)) := fun i j h => by
    simpa using h
  have hLkeysnd : (L.map (fun o => o.chunk_index)).Nodup := by
    rw [hkeys]
    exact (List.nodup_range n).map hcast
  have hLnd : L.Nodup := List.Nodup.of_map _ hLkeysnd
  have hLlen : L.length = n := by
    have h := congrArg List.length hkeys
    simpa using h
  have hrne : ranked ≠ [] := by
    intro h
    rw [h] at hr
    have h2 := hr.length_eq
    rw [hLlen] at h2
    simp at h2
    omega
  obtain ⟨best, rest, hranked⟩ : ∃ b r, ranked = b :: r := by
    cases ranked with
    | nil => exact absurd rfl hrne
    | cons b r => exact ⟨b, r, rfl⟩
  have hbestL : best ∈ L := hr.mem_iff.1 (by rw [hranked]; simp)
  have hkeymem : best.chunk_index ∈ L.map (fun o => o.chunk_index) :=
    List.mem_map_of_mem _ hbestL
  rw [hkeys, List.mem_map] at hkeymem
  obtain ⟨bi, hbi, hbiv⟩ := hkeymem
  rw [List.mem_range] at hbi
  have hb0 : 0 ≤ best.chunk_index := by omega
  have hb1 : best.chunk_index ≤ (n : Int) - 1 := by omega
  have htb : best.total_chunks = (n : Int) := htotal best hbestL
  have hLsorted : L.Pairwise (fun a b => a.chunk_index ≤ b.chunk_index) := by
    have h := (List.pairwise_map (f := fun o => o.chunk_index)
      (R := fun a b : Int => a ≤ b) (l := L)).1
    apply h
    rw [hkeys]
    rw [List.pairwise_map]
    exact (List.pairwise_lt_range n).imp (fun hlt => by exact_mod_cast le_of_lt hlt)
  have hsorted : sSort (fun x y => decide (x.chunk_index ≤ y.chunk_index)) fetched = L := by
    exact @eq_of_perm_sorted_keys SObj Int _ (fun o => o.chunk_index) _ _
      ((sSort_perm _ _).trans hf)
      (sSort_pairwise (fun o => o.chunk_index) fetched) hLsorted hLkeysnd
  refine ⟨best, rest, hranked, ?_, ?_⟩
  · rw [hranked]
    simp only [search_within_note, Option.map_some']
    rw [hsorted]
    have hfilter : L.filter
        (fun c => decide (max 0 (best.chunk_index - 0) ≤ c.chunk_index) &&
          decide (c.chunk_index ≤ min (best.total_chunks - 1) (best.chunk_index + 0)))
        = [best] := by
      apply filter_eq_singleton hLnd hbestL
      · rw [Bool.and_eq_true]
        constructor
        · rw [decide_eq_true_iff]; omega
        · rw [decide_eq_true_iff, htb]; omega
      · intro x hx hpx
        rw [Bool.and_eq_true, decide_eq_true_iff, decide_eq_true_iff, htb] at hpx
        have hxk : x.chunk_index = best.chunk_index := by omega
        exact List.inj_on_of_nodup_map hLkeysnd hx hbestL hxk
    rw [hfilter]
    simp [List.intercalate]
  · intro radius hrad
    rw [hranked]
    simp only [search_within_note, Option.map_some']
    rw [hsorted]
    have hfilter : L.filter
        (fun c => decide (max 0 (best.chunk_index - radius) ≤ c.chunk_index) &&
          decide (c.chunk_index ≤ min (best.total_chunks - 1) (best.chunk_index + radius)))
        = L := by
      rw [List.filter_eq_self]
      intro c hc
      have hck : c.chunk_index ∈ L.map (fun o => o.chunk_index) :=
        List.mem_map_of_mem _ hc
      rw [hkeys, List.mem_map] at hck
      obtain ⟨i, hi, hiv⟩ := hck
      rw [List.mem_range] at hi
      rw [Bool.and_eq_true]
      constructor
      · rw [decide_eq_true_iff]; omega
      · rw [decide_eq_true_iff, htb]; omega
    rw [hfilter]

/-- Ordinal-0 chunk of the witness document for C8. -/
def w8a : SObj := ⟨('d' :: []), ('T' :: []), ('A' :: []), [], [], [], 0, 2, none⟩

/-- Ordinal-1 chunk of the witness document for C8. -/
def w8b : SObj := ⟨('d' :: []), ('T' :: []), ('B' :: []), [], [], [], 1, 2, none⟩

/-- C8, witness: a two-chunk document whose ranked reply lists the second
chunk first. -/
theorem search_within_note_window_witness :
    (0 : Nat) < 2 ∧
      ([w8a, w8b].map (fun o => o.chunk_index) =
        (List.range 2).map (fun (i : Nat) => (i : Int))) ∧
      (∀ o ∈ [w8a, w8b], o.total_chunks = ((2 : Nat) : Int)) ∧
      ([w8b, w8a].Perm [w8a, w8b]) ∧
      (∃ best rest, ([w8b, w8a] : List SObj) = best :: rest ∧
        (search_within_note [w8b, w8a] [w8b, w8a] 0).map (fun w => w.context) =
          some best.content ∧
        ∀ radius : Int, ((2 : Nat) : Int) ≤ radius →
          (search_within_note [w8b, w8a] [w8b, w8a] radius).map (fun w => w.context) =
            some (List.intercalate ('\n' :: '\n' :: [])
              ([w8a, w8b].map (fun o => o.content)))) :=
  ⟨by norm_num, rfl, by decide, List.Perm.swap w8a w8b [],
    search_within_note_window [w8a, w8b] [w8b, w8a] [w8b, w8a] 2 (by norm_num) rfl
      (by decide) (List.Perm.swap w8a w8b []) (List.Perm.swap w8a w8b [])⟩

/- ### Facts about the generation pipeline's selection -/

theorem thresholdFiltered_eq_nil {objs : List SObj}
    (h : ∀ o ∈ objs, ∃ d, o.distance = some d ∧ 1 / 2 ≤ d) :
    thresholdFiltered objs = [] := by
  unfold thresholdFiltered
  rw [List.filterMap_eq_nil_iff]
  intro o ho
  obtain ⟨d, hd, hge⟩ := h o ho
  rw [hd]
  simp only [if_neg (not_lt.2 hge)]


theorem bestUpdate_length (d : List (List Char × (SObj × ℚ))) (o : SObj) (dist : ℚ) :
    (bestUpdate d o dist).length ≤ d.length + 1 := by
  unfold bestUpdate
  split
  · simp
  · split
    · rw [List.length_map]
      omega
    · omega

theorem bestUpdate_ne_nil (d : List (List Char × (SObj × ℚ))) (o : SObj) (dist : ℚ)
    (h : d ≠ []) : bestUpdate d o dist ≠ [] := by
  unfold bestUpdate
  split
  · simp
  · split
    · intro hemp
      rw [List.map_eq_nil_iff] at hemp
      exact h hemp
    · exact h

theorem bestUpdate_nil (o : SObj) (dist : ℚ) :
    bestUpdate [] o dist = [(o.note_id, (o, dist))] := rfl

theorem updBest_ne_nil : ∀ (l : List (SObj × ℚ)) (d : List (List Char × (SObj × ℚ))),
    d ≠ [] → updBest l d ≠ [] := by
  intro l
  induction l with
  | nil => intro d h; exact h
  | cons x rest ih =>
    intro d h
    obtain ⟨o, dist⟩ := x
    rw [updBest]
    exact ih _ (bestUpdate_ne_nil d o dist h)

theorem updBest_ne_nil_of_ne {l : List (SObj × ℚ)} (h : l ≠ []) :
    updBest l [] ≠ [] := by
  cases l with
  | nil => exact absurd rfl h
  | cons x rest =>
    obtain ⟨o, dist⟩ := x
    rw [updBest, bestUpdate_nil]
    exact updBest_ne_nil rest _ (by simp)

theorem updBest_length : ∀ (l : List (SObj × ℚ)) (d : List (List Char × (SObj × ℚ))),
    (updBest l d).length ≤ d.length + l.length := by
  intro l
  induction l with
  | nil => intro d; simp [updBest]
  | cons x rest ih =>
    intro d
    obtain ⟨o, dist⟩ := x
    rw [updBest]
    have h1 := bestUpdate_length d o dist
    have h2 := ih (bestUpdate d o dist)
    simp only [List.length_cons]
    omega

/-- Under the threshold fallback (nothing passed the filter), the selection
is non-empty (whenever the store returned anything and `limit ≥ 1`) and
holds at most the 3 globally best matches. -/
theorem selectedChunks_fallback_facts {objs : List SObj} {limit : Nat}
    (hne : objs ≠ []) (hlim : 1 ≤ limit) (hth : thresholdFiltered objs = []) :
    selectedChunks objs limit ≠ [] ∧ (selectedChunks objs limit).length ≤ 3 := by
  unfold selectedChunks withFallback
  rw [hth]
  simp only [List.isEmpty_nil, if_true]
  have hbase_ne : (objs.take 3).map (fun o => (o, o.distance.getD 1)) ≠ [] := by
    cases objs with
    | nil => exact absurd rfl hne
    | cons x xs => simp [List.take]
  have hbase_len : ((objs.take 3).map (fun o => (o, o.distance.getD 1))).length ≤ 3 := by
    rw [List.length_map, List.length_take]
    omega
  have hupd_ne := updBest_ne_nil_of_ne hbase_ne
  have hupd_len := updBest_length ((objs.take 3).map (fun o => (o, o.distance.getD 1))) []
  simp only [List.length_nil, Nat.zero_add] at hupd_len
  have hmap_ne : ((updBest ((objs.take 3).map (fun o => (o, o.distance.getD 1))) []).map
      (fun p => p.2)) ≠ [] := by
    intro h
    rw [List.map_eq_nil_iff] at h
    exact hupd_ne h
  have hperm := sSort_perm (fun x y : SObj × ℚ => decide (x.2 ≤ y.2))
    ((updBest ((objs.take 3).map (fun o => (o, o.distance.getD 1))) []).map (fun p => p.2))
  have hsort_ne : sSort (fun x y : SObj × ℚ => decide (x.2 ≤ y.2))
      ((updBest ((objs.take 3).map (fun o => (o, o.distance.getD 1))) []).map (fun p => p.2))
      ≠ [] := by
    intro h
    rw [h] at hperm
    exact hmap_ne hperm.symm.eq_nil
  have hsort_len : (sSort (fun x y : SObj × ℚ => decide (x.2 ≤ y.2))
      ((updBest ((objs.take 3).map (fun o => (o, o.distance.getD 1))) []).map
        (fun p => p.2))).length ≤ 3 := by
    rw [hperm.length_eq, List.length_map]
    omega
  constructor
  · cases hs : sSort (fun x y : SObj × ℚ => decide (x.2 ≤ y.2))
        ((updBest ((objs.take 3).map (fun o => (o, o.distance.getD 1))) []).map (fun p => p.2)) with
    | nil => exact absurd hs hsort_ne
    | cons x xs =>
      cases limit with
      | zero => omega
      | succ m => simp [List.take]
  · rw [List.length_take]
    omega

theorem selectedChunks_nil (limit : Nat) : selectedChunks [] limit = [] := by
  unfold selectedChunks withFallback thresholdFiltered
  simp [updBest, sSort]

/- ### Claim C4 -/

/-- A match whose reported distance is 1 (so the top-3 threshold fallback
selects it). -/
def c4obj : SObj := ⟨('n' :: []), ('t' :: []), ('c' :: []), [], [], [], 0, 1, some 1⟩

/-- C4, counterexample.  The claim covers the case where "the transport
call itself fails" and promises the already-selected source list.  In the
source the `requests.post` exception is caught by the outer handler (lines
594-601), which returns an error answer with an *empty* `context_notes`
even though sources had been selected. -/
theorem c4_counterexample :
    selectedChunks (c4obj :: []) 1 ≠ [] ∧
      (generative_search (c4obj :: []) 1 (.transportFail [])).context_notes = [] := by
  refine ⟨?_, rfl⟩
  have hth : thresholdFiltered (c4obj :: []) = [] := thresholdFiltered_eq_nil (by
    intro o ho
    rw [List.mem_singleton] at ho
    subst ho
    exact ⟨1, rfl, by norm_num⟩)
  exact (selectedChunks_fallback_facts (by simp) (by norm_num) hth).1

/-- C4, amended: when sources were selected and the generation service
answers with a non-success status, the result substitutes the user-safe
fallback message and still returns one preview per selected chunk (a
non-empty source list).  When the transport call itself raises, the outer
handler instead returns an error answer with an empty source list (the
counterexample above). -/
theorem generative_search_badStatus (objs : List SObj) (limit status : Nat)
    (respText : List Char) (hstatus : status ≠ 200)
    (hsel : selectedChunks objs limit ≠ []) :
    (generative_search objs limit (.httpReply status respText)).response = genErrorMsg ∧
      (generative_search objs limit (.httpReply status respText)).context_notes =
        (selectedChunks objs limit).map (fun p => toPreview p.1) ∧
      (generative_search objs limit (.httpReply status respText)).context_notes ≠ [] := by
  have hne : objs ≠ [] := by
    intro h
    subst h
    exact hsel (selectedChunks_nil limit)
  have hie : objs.isEmpty = false := by
    cases objs with
    | nil => exact absurd rfl hne
    | cons _ _ => rfl
  have hgen : generatedText status respText = genErrorMsg := by
    unfold generatedText
    rw [if_neg hstatus]
  have hgenne : (generatedText status respText).isEmpty = false := by
    rw [hgen]
    rfl
  have heq : generative_search objs limit (.httpReply status respText) =
      ⟨genErrorMsg, (selectedChunks objs limit).map (fun p => toPreview p.1), true⟩ := by
    unfold generative_search
    rw [hie]
    simp only [Bool.false_eq_true, if_false]
    rw [hgenne]
    simp only [Bool.false_eq_true, if_false]
    rw [hgen]
  rw [heq]
  refine ⟨rfl, rfl, ?_⟩
  intro h
  rw [List.map_eq_nil_iff] at h
  exact hsel h

/-- C4, witness: one selected source, HTTP 500. -/
theorem generative_search_badStatus_witness :
    (500 : Nat) ≠ 200 ∧ selectedChunks (c4obj :: []) 1 ≠ [] ∧
      ((generative_search (c4obj :: []) 1 (.httpReply 500 [])).response = genErrorMsg ∧
        (generative_search (c4obj :: []) 1 (.httpReply 500 [])).context_notes =
          (selectedChunks (c4obj :: []) 1).map (fun p => toPreview p.1) ∧
        (generative_search (c4obj :: []) 1 (.httpReply 500 [])).context_notes ≠ []) := by
  have hsel : selectedChunks (c4obj :: []) 1 ≠ [] :=
    (selectedChunks_fallback_facts (by simp) (by norm_num)
      (thresholdFiltered_eq_nil (by
        intro o ho
        rw [List.mem_singleton] at ho
        subst ho
        exact ⟨1, rfl, by norm_num⟩))).1
  exact ⟨by norm_num, hsel, generative_search_badStatus _ 1 500 [] (by norm_num) hsel⟩

/- ### Claim C9 -/

/-- A match whose reported distance 1 is at or above the 0.5 threshold. -/
def c9obj : SObj := ⟨('m' :: []), ('t' :: []), ('c' :: []), [], [], [], 0, 1, some 1⟩

/-- C9, counterexample.  In the claim's scenario (retrieval non-empty,
every distance at or above the threshold) with a failing transport call,
the generation attempt is made but the result's source list is empty - the
outer handler drops the already-selected fallback sources, so "the result
still contains a non-empty source list" does not hold for every such
call. -/
theorem c9_counterexample :
    ((c9obj :: []) : List SObj) ≠ [] ∧
      (∀ o ∈ (c9obj :: [] : List SObj), ∃ d, o.distance = some d ∧ 1 / 2 ≤ d) ∧
      (generative_search (c9obj :: []) 1 (.transportFail [])).generationCalled = true ∧
      (generative_search (c9obj :: []) 1 (.transportFail [])).context_notes = [] := by
  refine ⟨by simp, ?_, rfl, rfl⟩
  intro o ho
  rw [List.mem_singleton] at ho
  subst ho
  exact ⟨1, rfl, by norm_num⟩

/-- C9, amended: in the threshold-fallback scenario (a non-empty retrieval
within the store's `limit * 4` contract, every reported distance at or
above 0.5), whenever the generation transport call completes with an HTTP
reply, the result carries a non-empty source list of at most 3 entries
(the globally best matches), the generation service was called, and the
answer is not the canned no-content message. -/
theorem generative_search_threshold_fallback (objs : List SObj) (limit status : Nat)
    (respText : List Char) (hne : objs ≠ []) (hcontract : objs.length ≤ 4 * limit)
    (hdist : ∀ o ∈ objs, ∃ d, o.distance = some d ∧ 1 / 2 ≤ d)
    (hcanned : status = 200 → respText ≠ noContentMsg) :
    (generative_search objs limit (.httpReply status respText)).context_notes ≠ [] ∧
      (generative_search objs limit (.httpReply status respText)).context_notes.length ≤ 3 ∧
      (generative_search objs limit (.httpReply status respText)).generationCalled = true ∧
      (generative_search objs limit (.httpReply status respText)).response ≠ noContentMsg := by
  have hlim : 1 ≤ limit := by
    cases objs with
    | nil => exact absurd rfl hne
    | cons _ _ =>
      rw [List.length_cons] at hcontract
      omega
  have hie : objs.isEmpty = false := by
    cases objs with
    | nil => exact absurd rfl hne
    | cons _ _ => rfl
  obtain ⟨hselne, hsel3⟩ :=
    selectedChunks_fallback_facts hne hlim (thresholdFiltered_eq_nil hdist)
  have heq : generative_search objs limit (.httpReply status respText) =
      ⟨if (generatedText status respText).isEmpty then emptyGenMsg
        else generatedText status respText,
        (selectedChunks objs limit).map (fun p => toPreview p.1), true⟩ := by
    unfold generative_search
    rw [hie]
    simp only [Bool.false_eq_true, if_false]
  rw [heq]
  refine ⟨?_, ?_, rfl, ?_⟩
  · intro h
    rw [List.map_eq_nil_iff] at h
    exact hselne h
  · rw [List.length_map]
    exact hsel3
  · show (if (generatedText status respText).isEmpty = true then emptyGenMsg
      else generatedText status respText) ≠ noContentMsg
    by_cases hs : status = 200
    · subst hs
      unfold generatedText
      rw [if_pos rfl]
      cases hemp : respText.isEmpty with
      | true =>
        rw [if_pos rfl]
        decide
      | false =>
        rw [if_neg Bool.false_ne_true]
        exact hcanned rfl
    · unfold generatedText
      rw [if_neg hs]
      have hg : (genErrorMsg).isEmpty = false := rfl
      rw [hg, if_neg Bool.false_ne_true]
      decide

/-- C9, witness: one above-threshold match, a 200 reply with text "h". -/
theorem generative_search_threshold_fallback_witness :
    ((c9obj :: []) : List SObj) ≠ [] ∧ ((c9obj :: [] : List SObj)).length ≤ 4 * 1 ∧
      (∀ o ∈ (c9obj :: [] : List SObj), ∃ d, o.distance = some d ∧ 1 / 2 ≤ d) ∧
      ((generative_search (c9obj :: []) 1 (.httpReply 200 ('h' :: []))).context_notes ≠ [] ∧
        (generative_search (c9obj :: []) 1 (.httpReply 200 ('h' :: []))).context_notes.length ≤ 3 ∧
        (generative_search (c9obj :: []) 1 (.httpReply 200 ('h' :: []))).generationCalled = true ∧
        (generative_search (c9obj :: []) 1 (.httpReply 200 ('h' :: []))).response ≠ noContentMsg) := by
  have hdist : ∀ o ∈ (c9obj :: [] : List SObj), ∃ d, o.distance = some d ∧ 1 / 2 ≤ d := by
    intro o ho
    rw [List.mem_singleton] at ho
    subst ho
    exact ⟨1, rfl, by norm_num⟩
  exact ⟨by simp, by simp, hdist,
    generative_search_threshold_fallback _ 1 200 ('h' :: []) (by simp) (by simp) hdist
      (fun _ => by decide)⟩

/-- A chunk match used by the C7 witness. -/
def c7obj : SObj := ⟨('p' :: []), ('t' :: []), ('c' :: []), [], [], [], 0, 2, none⟩

/-- C7, witness: two matching chunks of one document under `limit = 1`. -/
theorem semantic_search_dedup_witness :
    ((semantic_search (c7obj :: c7obj :: []) 1).map (fun r => r.note_id)).Nodup ∧
      (semantic_search (c7obj :: c7obj :: []) 1).length ≤ 1 ∧
      ∀ r ∈ semantic_search (c7obj :: c7obj :: []) 1,
        ∃ o, (c7obj :: c7obj :: []).find? (fun o => decide (o.note_id = r.note_id)) = some o ∧
          r = toSearchResult o :=
  semantic_search_dedup (c7obj :: c7obj :: []) 1
